import Mathlib

/-!
Verification of `aws_reports/reserved_instance.py`: the reserved-instance
reconciler.  The script aggregates running EC2 instances and active
reservations into two dictionaries keyed by `(instance_type, region)`,
computes a signed difference per key, partitions the keys into three
buckets by the sign of the difference, and prints summary totals.

Python dictionaries (here `defaultdict(int)` / `defaultdict(list)`) are
embedded as a pair of an insertion-ordered key list and a total value
function that is the default value off the key list.  Loops become left
folds over the input record lists.
-/

namespace AwsReports

/-- A `(instance_type, region)` aggregation key. -/
abbrev Key := String × String

/-- A running EC2 instance record, with the fields the script reads:
`InstanceId`, `InstanceType`, `Placement.AvailabilityZone`, and the
optional `SpotInstanceRequestId` marker. -/
structure Ec2Instance where
  instanceId : String
  instanceType : String
  availabilityZone : String
  spotInstanceRequestId : Option String
deriving DecidableEq, Repr

/-- An active reserved-instance record, with the fields the script reads:
`InstanceType`, the optional `AvailabilityZone`, the optional `Scope`,
and `InstanceCount`.  The count is an unbounded integer like a Python
`int`. -/
structure RiRecord where
  instanceType : String
  availabilityZone : Option String
  scope : Option String
  instanceCount : Int
deriving DecidableEq, Repr

/-- A Python `defaultdict(int)` with `Key` keys: insertion-ordered key
list plus a value function that is `0` off the key list. -/
structure CountDict where
  keys : List Key
  val : Key → Int

/-- The empty `defaultdict(int)`. -/
def CountDict.empty : CountDict := ⟨[], fun _ => 0⟩

/-- `d[k] += n` on a `defaultdict(int)`: a fresh key is appended to the
insertion order, and the value at `k` grows by `n`. -/
def CountDict.add (d : CountDict) (k : Key) (n : Int) : CountDict where
  keys := if k ∈ d.keys then d.keys else d.keys ++ [k]
  val := fun q => if q = k then d.val k + n else d.val q

/-- `d.get(k, dflt)` on a dictionary: the stored value when the key is
present, the default otherwise. -/
def CountDict.get (d : CountDict) (k : Key) (dflt : Int) : Int :=
  if k ∈ d.keys then d.val k else dflt

/-- `sum(d.values())`. -/
def CountDict.total (d : CountDict) : Int := (d.keys.map d.val).sum

/-- A Python `defaultdict(list)` holding instance-ID lists. -/
structure ListDict where
  keys : List Key
  val : Key → List String

/-- The empty `defaultdict(list)`. -/
def ListDict.empty : ListDict := ⟨[], fun _ => []⟩

/-- `d[k].append(s)` on a `defaultdict(list)`. -/
def ListDict.push (d : ListDict) (k : Key) (s : String) : ListDict where
  keys := if k ∈ d.keys then d.keys else d.keys ++ [k]
  val := fun q => if q = k then d.val k ++ [s] else d.val q

/-- `d.get(k, dflt)` on a `defaultdict(list)` (no insertion). -/
def ListDict.get (d : ListDict) (k : Key) (dflt : List String) : List String :=
  if k ∈ d.keys then d.val k else dflt

/-- An instance is disqualified as spot when it carries a
`SpotInstanceRequestId` field. -/
def Ec2Instance.isSpot (i : Ec2Instance) : Bool := i.spotInstanceRequestId.isSome

/-- The aggregation key of a running instance: its type paired with the
region obtained from the availability zone by dropping the trailing zone
letter (`az[:-1]`). -/
def Ec2Instance.key (i : Ec2Instance) : Key :=
  (i.instanceType, i.availabilityZone.dropRight 1)

/-- The `running_instances` dictionary: the loop over running instances,
skipping spot instances and counting the rest per key. -/
def running_instances (insts : List Ec2Instance) : CountDict :=
  insts.foldl (fun d i => if i.isSpot then d else d.add i.key 1) CountDict.empty

/-- The `instance_mapping` dictionary: the same loop, collecting the
instance IDs per key. -/
def instance_mapping (insts : List Ec2Instance) : ListDict :=
  insts.foldl (fun d i => if i.isSpot then d else d.push i.key i.instanceId)
    ListDict.empty

/-- Region extraction for a reservation: the availability zone with the
last character removed when the field is present and non-empty (Python
truthiness), else the session's region when `Scope == "Region"`, else
`"Unknown"`. -/
def reservedRegion (defaultRegion : String) (r : RiRecord) : String :=
  match r.availabilityZone with
  | some az =>
      if az ≠ "" then az.dropRight 1
      else if r.scope = some "Region" then defaultRegion else "Unknown"
  | none => if r.scope = some "Region" then defaultRegion else "Unknown"

/-- The aggregation key of a reservation record. -/
def RiRecord.key (defaultRegion : String) (r : RiRecord) : Key :=
  (r.instanceType, reservedRegion defaultRegion r)

/-- The `reserved_instances` dictionary: the loop over active
reservations, adding each record's `InstanceCount` at its key. -/
def reserved_instances (rs : List RiRecord) (defaultRegion : String) : CountDict :=
  rs.foldl (fun d r => d.add (r.key defaultRegion) r.instanceCount) CountDict.empty

/-- `instance_diff`: first the comprehension
`{x: reserved[x] - running.get(x, 0) for x in reserved}`, then the loop
setting `diff[k] = -running[k]` for every running key absent from the
reserved dictionary.  Off both key lists the value function is the model
default `0`. -/
def instance_diff (running res : CountDict) : CountDict where
  keys := res.keys ++ running.keys.filter (fun k => decide (k ∉ res.keys))
  val := fun k =>
    if k ∈ res.keys then res.val k - running.get k 0
    else if k ∈ running.keys then - running.val k
    else 0

/-- `unused_reservations`: the keys with positive difference, each with
its difference. -/
def unused_reservations (diff : CountDict) : List (Key × Int) :=
  (diff.keys.filter (fun k => decide (diff.val k > 0))).map (fun k => (k, diff.val k))

/-- `unreserved_instances`: the keys with negative difference, each with
the negated (positive) magnitude. -/
def unreserved_instances (diff : CountDict) : List (Key × Int) :=
  (diff.keys.filter (fun k => decide (diff.val k < 0))).map (fun k => (k, - diff.val k))

/-- `used_reservations`: the keys with zero difference. -/
def used_reservations (diff : CountDict) : List Key :=
  diff.keys.filter (fun k => decide (diff.val k = 0))

/-- `qty_running_instances = sum(running_instances.values())`. -/
def qty_running_instances (insts : List Ec2Instance) : Int :=
  (running_instances insts).total

/-- `qty_reserved_instances = sum(reserved_instances.values())`. -/
def qty_reserved_instances (rs : List RiRecord) (defaultRegion : String) : Int :=
  (reserved_instances rs defaultRegion).total

/-- Everything the script reports: the three buckets (the exactly-used
bucket with its `instance_mapping.get(key, ["N/A"])` ID list) and the two
summary totals. -/
structure Report where
  unused : List (Key × Int)
  unreserved : List (Key × Int)
  used : List (Key × List String)
  qtyRunning : Int
  qtyReserved : Int
deriving DecidableEq, Repr

/-- The whole script as one function from its inputs (running-instance
records, reservation records, session region) to its report. -/
def reconcile (insts : List Ec2Instance) (rs : List RiRecord)
    (defaultRegion : String) : Report :=
  let running := running_instances insts
  let mapping := instance_mapping insts
  let res := reserved_instances rs defaultRegion
  let diff := instance_diff running res
  { unused := unused_reservations diff
    unreserved := unreserved_instances diff
    used := (used_reservations diff).map (fun k => (k, mapping.get k ["N/A"]))
    qtyRunning := running.total
    qtyReserved := res.total }

/-- Well-formedness of a running-instance record, as the spec scopes it:
a non-empty type string and an availability zone of length at least 2. -/
def WfInstance (i : Ec2Instance) : Prop :=
  i.instanceType ≠ "" ∧ 2 ≤ i.availabilityZone.length

/-- Well-formedness of a reservation record: count at least 1, non-empty
type string, and any availability zone of length at least 2. -/
def WfReserved (r : RiRecord) : Prop :=
  1 ≤ r.instanceCount ∧ r.instanceType ≠ "" ∧
    ∀ az, r.availabilityZone = some az → 2 ≤ az.length

/-- The difference dictionary the script computes from its raw inputs. -/
def diff_of (insts : List Ec2Instance) (rs : List RiRecord)
    (defaultRegion : String) : CountDict :=
  instance_diff (running_instances insts) (reserved_instances rs defaultRegion)

/-- Structural invariant of the dictionary model: the key list has no
duplicates and the value function is the default `0` off the key list. -/
def CountDict.Inv (d : CountDict) : Prop :=
  d.keys.Nodup ∧ ∀ k, k ∉ d.keys → d.val k = 0

/-- Structural invariant of the list-dictionary model. -/
def ListDict.Inv (d : ListDict) : Prop :=
  d.keys.Nodup ∧ ∀ k, k ∉ d.keys → d.val k = []

/-- Concrete running instances for evaluating the model: two
`c5.xlarge` in `us-east-1`, one `t3.micro` in `eu-west-1`, and one spot
`t3.micro`. -/
def demoInstances : List Ec2Instance :=
  [⟨"i-1", "c5.xlarge", "us-east-1a", none⟩,
   ⟨"i-2", "c5.xlarge", "us-east-1b", none⟩,
   ⟨"i-3", "t3.micro", "eu-west-1a", none⟩,
   ⟨"i-spot", "t3.micro", "eu-west-1a", some "sir-1"⟩]

/-- Concrete reservations: a zonal count-2 `c5.xlarge` reservation and a
regional count-1 `m5.large` reservation. -/
def demoReserved : List RiRecord :=
  [⟨"c5.xlarge", some "us-east-1a", none, 2⟩,
   ⟨"m5.large", none, some "Region", 1⟩]

/-- A reservation record whose `AvailabilityZone` field is present but
empty, with `Scope == "Region"`. -/
def emptyAzRecord : RiRecord := ⟨"m5.large", some "", some "Region", 1⟩

/-- A single spot instance, for exercising the spot-exclusion path. -/
def spotOnly : Ec2Instance := ⟨"i-s", "t3.micro", "eu-west-1a", some "sir-9"⟩

/-! ### Lemmas about the dictionary model -/

lemma CountDict.mem_add (d : CountDict) (k : Key) (n : Int) (q : Key) :
    q ∈ (d.add k n).keys ↔ q ∈ d.keys ∨ q = k := by
  by_cases h : k ∈ d.keys <;> simp only [CountDict.add, h, if_true, if_false,
    List.mem_append, List.mem_singleton]
  exact ⟨Or.inl, fun hq => hq.elim id (fun e => e ▸ h)⟩

lemma CountDict.add_val (d : CountDict) (k : Key) (n : Int) (q : Key) :
    (d.add k n).val q = if q = k then d.val k + n else d.val q := rfl

lemma CountDict.Inv.add {d : CountDict} (hd : d.Inv) (k : Key) (n : Int) :
    (d.add k n).Inv := by
  constructor
  · by_cases h : k ∈ d.keys <;>
      simp [CountDict.add, h, hd.1, List.nodup_append, List.disjoint_singleton]
  · intro q hq
    rw [CountDict.mem_add] at hq
    push_neg at hq
    rw [CountDict.add_val, if_neg hq.2]
    exact hd.2 q hq.1

lemma count_empty_inv : CountDict.empty.Inv :=
  ⟨List.nodup_nil, fun _ _ => rfl⟩

lemma ListDict.mem_push (d : ListDict) (k : Key) (s : String) (q : Key) :
    q ∈ (d.push k s).keys ↔ q ∈ d.keys ∨ q = k := by
  by_cases h : k ∈ d.keys <;> simp only [ListDict.push, h, if_true, if_false,
    List.mem_append, List.mem_singleton]
  exact ⟨Or.inl, fun hq => hq.elim id (fun e => e ▸ h)⟩

lemma ListDict.push_val (d : ListDict) (k : Key) (s : String) (q : Key) :
    (d.push k s).val q = if q = k then d.val k ++ [s] else d.val q := rfl

lemma ListDict.Inv.push {d : ListDict} (hd : d.Inv) (k : Key) (s : String) :
    (d.push k s).Inv := by
  constructor
  · by_cases h : k ∈ d.keys <;>
      simp [ListDict.push, h, hd.1, List.nodup_append, List.disjoint_singleton]
  · intro q hq
    rw [ListDict.mem_push] at hq
    push_neg at hq
    rw [ListDict.push_val, if_neg hq.2]
    exact hd.2 q hq.1

lemma list_empty_inv : ListDict.empty.Inv :=
  ⟨List.nodup_nil, fun _ _ => rfl⟩

lemma sum_map_update (l : List Key) (f : Key → Int) (k : Key) (n : Int)
    (hl : l.Nodup) (hk : k ∈ l) :
    (l.map fun q => if q = k then f k + n else f q).sum = (l.map f).sum + n := by
  induction l with
  | nil => cases hk
  | cons a l ih =>
    have hal : a ∉ l := (List.nodup_cons.mp hl).1
    rcases List.mem_cons.mp hk with rfl | hk2
    · have he : l.map (fun q => if q = k then f k + n else f q) = l.map f :=
        List.map_congr_left (fun q hq => if_neg (by rintro rfl; exact hal hq))
      simp only [List.map_cons, List.sum_cons, he, if_true]
      ring
    · have hne : a ≠ k := by rintro rfl; exact hal hk2
      simp only [List.map_cons, List.sum_cons, if_neg hne]
      rw [ih (List.nodup_cons.mp hl).2 hk2]; ring

lemma CountDict.total_add (d : CountDict) (hd : d.Inv) (k : Key) (n : Int) :
    (d.add k n).total = d.total + n := by
  unfold CountDict.total CountDict.add
  dsimp only
  by_cases h : k ∈ d.keys
  · rw [if_pos h]
    exact sum_map_update d.keys d.val k n hd.1 h
  · have he : d.keys.map (fun q => if q = k then d.val k + n else d.val q)
        = d.keys.map d.val :=
      List.map_congr_left (fun q hq => if_neg (by rintro rfl; exact h hq))
    rw [if_neg h, List.map_append, List.sum_append, he]
    simp [hd.2 k h]

/-! ### Characterizations of the three aggregation loops -/

lemma running_foldl_val (l : List Ec2Instance) (d : CountDict) (k : Key) :
    (l.foldl (fun d i => if i.isSpot then d else d.add i.key 1) d).val k
      = d.val k
        + (((l.filter fun i => !i.isSpot).filter fun i => decide (i.key = k)).length : Int) := by
  induction l generalizing d with
  | nil => simp
  | cons a l ih =>
    simp only [List.foldl_cons]
    by_cases hs : a.isSpot = true
    · simp [hs, ih]
    · rw [if_neg hs, ih, CountDict.add_val]
      by_cases hk : a.key = k
      · subst hk
        simp [List.filter_cons, hs]
        ring
      · have hk2 : ¬ k = a.key := fun e => hk e.symm
        simp [List.filter_cons, hs, hk, hk2]

lemma running_foldl_mem (l : List Ec2Instance) (d : CountDict) (k : Key) :
    k ∈ (l.foldl (fun d i => if i.isSpot then d else d.add i.key 1) d).keys
      ↔ k ∈ d.keys ∨ ∃ i ∈ l, i.isSpot = false ∧ i.key = k := by
  induction l generalizing d with
  | nil => simp
  | cons a l ih =>
    simp only [List.foldl_cons]
    by_cases hs : a.isSpot = true
    · rw [if_pos hs, ih]
      simp only [List.mem_cons]
      constructor
      · rintro (h | ⟨i, hi, h1, h2⟩)
        · exact Or.inl h
        · exact Or.inr ⟨i, Or.inr hi, h1, h2⟩
      · rintro (h | ⟨i, (rfl | hi), h1, h2⟩)
        · exact Or.inl h
        · rw [hs] at h1; cases h1
        · exact Or.inr ⟨i, hi, h1, h2⟩
    · rw [if_neg hs, ih]
      simp only [CountDict.mem_add, List.mem_cons]
      constructor
      · rintro (⟨h | rfl⟩ | ⟨i, hi, h1, h2⟩)
        · exact Or.inl h
        · exact Or.inr ⟨a, Or.inl rfl, Bool.not_eq_true _ ▸ hs, rfl⟩
        · exact Or.inr ⟨i, Or.inr hi, h1, h2⟩
      · rintro (h | ⟨i, (rfl | hi), h1, h2⟩)
        · exact Or.inl (Or.inl h)
        · exact Or.inl (Or.inr h2.symm)
        · exact Or.inr ⟨i, hi, h1, h2⟩

lemma running_foldl_inv (l : List Ec2Instance) (d : CountDict) (hd : d.Inv) :
    (l.foldl (fun d i => if i.isSpot then d else d.add i.key 1) d).Inv := by
  induction l generalizing d with
  | nil => exact hd
  | cons a l ih =>
    simp only [List.foldl_cons]
    by_cases hs : a.isSpot = true
    · rw [if_pos hs]; exact ih d hd
    · rw [if_neg hs]; exact ih _ (hd.add a.key 1)

lemma running_foldl_total (l : List Ec2Instance) (d : CountDict) (hd : d.Inv) :
    (l.foldl (fun d i => if i.isSpot then d else d.add i.key 1) d).total
      = d.total + ((l.filter fun i => !i.isSpot).length : Int) := by
  induction l generalizing d with
  | nil => simp
  | cons a l ih =>
    simp only [List.foldl_cons]
    by_cases hs : a.isSpot = true
    · rw [if_pos hs, ih d hd]
      simp [List.filter_cons, hs]
    · rw [if_neg hs, ih _ (hd.add a.key 1), CountDict.total_add d hd]
      simp [List.filter_cons, hs]
      ring

lemma mapping_foldl_val (l : List Ec2Instance) (d : ListDict) (k : Key) :
    (l.foldl (fun d i => if i.isSpot then d else d.push i.key i.instanceId) d).val k
      = d.val k
        ++ (((l.filter fun i => !i.isSpot).filter fun i => decide (i.key = k)).map
              Ec2Instance.instanceId) := by
  induction l generalizing d with
  | nil => simp
  | cons a l ih =>
    simp only [List.foldl_cons]
    by_cases hs : a.isSpot = true
    · simp [hs, ih]
    · rw [if_neg hs, ih, ListDict.push_val]
      by_cases hk : a.key = k
      · subst hk
        simp [List.filter_cons, hs]
      · have hk2 : ¬ k = a.key := fun e => hk e.symm
        simp [List.filter_cons, hs, hk, hk2]

lemma mapping_foldl_mem (l : List Ec2Instance) (d : ListDict) (k : Key) :
    k ∈ (l.foldl (fun d i => if i.isSpot then d else d.push i.key i.instanceId) d).keys
      ↔ k ∈ d.keys ∨ ∃ i ∈ l, i.isSpot = false ∧ i.key = k := by
  induction l generalizing d with
  | nil => simp
  | cons a l ih =>
    simp only [List.foldl_cons]
    by_cases hs : a.isSpot = true
    · rw [if_pos hs, ih]
      simp only [List.mem_cons]
      constructor
      · rintro (h | ⟨i, hi, h1, h2⟩)
        · exact Or.inl h
        · exact Or.inr ⟨i, Or.inr hi, h1, h2⟩
      · rintro (h | ⟨i, (rfl | hi), h1, h2⟩)
        · exact Or.inl h
        · rw [hs] at h1; cases h1
        · exact Or.inr ⟨i, hi, h1, h2⟩
    · rw [if_neg hs, ih]
      simp only [ListDict.mem_push, List.mem_cons]
      constructor
      · rintro (⟨h | rfl⟩ | ⟨i, hi, h1, h2⟩)
        · exact Or.inl h
        · exact Or.inr ⟨a, Or.inl rfl, Bool.not_eq_true _ ▸ hs, rfl⟩
        · exact Or.inr ⟨i, Or.inr hi, h1, h2⟩
      · rintro (h | ⟨i, (rfl | hi), h1, h2⟩)
        · exact Or.inl (Or.inl h)
        · exact Or.inl (Or.inr h2.symm)
        · exact Or.inr ⟨i, hi, h1, h2⟩

lemma mapping_foldl_inv (l : List Ec2Instance) (d : ListDict) (hd : d.Inv) :
    (l.foldl (fun d i => if i.isSpot then d else d.push i.key i.instanceId) d).Inv := by
  induction l generalizing d with
  | nil => exact hd
  | cons a l ih =>
    simp only [List.foldl_cons]
    by_cases hs : a.isSpot = true
    · rw [if_pos hs]; exact ih d hd
    · rw [if_neg hs]; exact ih _ (hd.push a.key a.instanceId)

lemma reserved_foldl_val (l : List RiRecord) (dr : String) (d : CountDict) (k : Key) :
    (l.foldl (fun d r => d.add (r.key dr) r.instanceCount) d).val k
      = d.val k
        + ((l.filter fun r => decide (r.key dr = k)).map RiRecord.instanceCount).sum := by
  induction l generalizing d with
  | nil => simp
  | cons a l ih =>
    simp only [List.foldl_cons]
    rw [ih, CountDict.add_val]
    by_cases hk : a.key dr = k
    · subst hk
      simp [List.filter_cons]
      ring
    · have hk2 : ¬ k = a.key dr := fun e => hk e.symm
      simp [List.filter_cons, hk, hk2]

lemma reserved_foldl_mem (l : List RiRecord) (dr : String) (d : CountDict) (k : Key) :
    k ∈ (l.foldl (fun d r => d.add (r.key dr) r.instanceCount) d).keys
      ↔ k ∈ d.keys ∨ ∃ r ∈ l, r.key dr = k := by
  induction l generalizing d with
  | nil => simp
  | cons a l ih =>
    simp only [List.foldl_cons]
    rw [ih]
    simp only [CountDict.mem_add, List.mem_cons]
    constructor
    · rintro (⟨h | rfl⟩ | ⟨r, hr, h2⟩)
      · exact Or.inl h
      · exact Or.inr ⟨a, Or.inl rfl, rfl⟩
      · exact Or.inr ⟨r, Or.inr hr, h2⟩
    · rintro (h | ⟨r, (rfl | hr), h2⟩)
      · exact Or.inl (Or.inl h)
      · exact Or.inl (Or.inr h2.symm)
      · exact Or.inr ⟨r, hr, h2⟩

lemma reserved_foldl_inv (l : List RiRecord) (dr : String) (d : CountDict)
    (hd : d.Inv) :
    (l.foldl (fun d r => d.add (r.key dr) r.instanceCount) d).Inv := by
  induction l generalizing d with
  | nil => exact hd
  | cons a l ih =>
    simp only [List.foldl_cons]
    exact ih _ (hd.add (a.key dr) a.instanceCount)

lemma reserved_foldl_total (l : List RiRecord) (dr : String) (d : CountDict)
    (hd : d.Inv) :
    (l.foldl (fun d r => d.add (r.key dr) r.instanceCount) d).total
      = d.total + (l.map RiRecord.instanceCount).sum := by
  induction l generalizing d with
  | nil => simp
  | cons a l ih =>
    simp only [List.foldl_cons]
    rw [ih _ (hd.add (a.key dr) a.instanceCount), CountDict.total_add d hd]
    simp
    ring

lemma running_instances_inv (insts : List Ec2Instance) :
    (running_instances insts).Inv :=
  running_foldl_inv insts CountDict.empty count_empty_inv

lemma running_instances_val (insts : List Ec2Instance) (k : Key) :
    (running_instances insts).val k
      = (((insts.filter fun i => !i.isSpot).filter fun i => decide (i.key = k)).length : Int) := by
  simpa [running_instances, CountDict.empty] using
    running_foldl_val insts CountDict.empty k

lemma mem_running_instances (insts : List Ec2Instance) (k : Key) :
    k ∈ (running_instances insts).keys
      ↔ ∃ i ∈ insts, i.isSpot = false ∧ i.key = k := by
  simpa [running_instances, CountDict.empty] using
    running_foldl_mem insts CountDict.empty k

lemma instance_mapping_inv (insts : List Ec2Instance) :
    (instance_mapping insts).Inv :=
  mapping_foldl_inv insts ListDict.empty list_empty_inv

lemma instance_mapping_val (insts : List Ec2Instance) (k : Key) :
    (instance_mapping insts).val k
      = ((insts.filter fun i => !i.isSpot).filter fun i => decide (i.key = k)).map
          Ec2Instance.instanceId := by
  simpa [instance_mapping, ListDict.empty] using
    mapping_foldl_val insts ListDict.empty k

lemma mem_instance_mapping (insts : List Ec2Instance) (k : Key) :
    k ∈ (instance_mapping insts).keys
      ↔ ∃ i ∈ insts, i.isSpot = false ∧ i.key = k := by
  simpa [instance_mapping, ListDict.empty] using
    mapping_foldl_mem insts ListDict.empty k

lemma reserved_instances_inv (rs : List RiRecord) (dr : String) :
    (reserved_instances rs dr).Inv :=
  reserved_foldl_inv rs dr CountDict.empty count_empty_inv

lemma reserved_instances_val (rs : List RiRecord) (dr : String) (k : Key) :
    (reserved_instances rs dr).val k
      = ((rs.filter fun r => decide (r.key dr = k)).map RiRecord.instanceCount).sum := by
  simpa [reserved_instances, CountDict.empty] using
    reserved_foldl_val rs dr CountDict.empty k

lemma mem_reserved_instances (rs : List RiRecord) (dr : String) (k : Key) :
    k ∈ (reserved_instances rs dr).keys ↔ ∃ r ∈ rs, r.key dr = k := by
  simpa [reserved_instances, CountDict.empty] using
    reserved_foldl_mem rs dr CountDict.empty k

lemma qty_running_eq (insts : List Ec2Instance) :
    qty_running_instances insts = ((insts.filter fun i => !i.isSpot).length : Int) := by
  simpa [qty_running_instances, running_instances, CountDict.total,
    CountDict.empty] using
    running_foldl_total insts CountDict.empty count_empty_inv

lemma qty_reserved_eq (rs : List RiRecord) (dr : String) :
    qty_reserved_instances rs dr = (rs.map RiRecord.instanceCount).sum := by
  simpa [qty_reserved_instances, reserved_instances, CountDict.total,
    CountDict.empty] using
    reserved_foldl_total rs dr CountDict.empty count_empty_inv

/-! ### Lemmas about the difference dictionary -/

lemma mem_instance_diff (running res : CountDict) (k : Key) :
    k ∈ (instance_diff running res).keys ↔ k ∈ res.keys ∨ k ∈ running.keys := by
  simp only [instance_diff, List.mem_append, List.mem_filter, decide_eq_true_eq]
  constructor
  · rintro (h | ⟨h, _⟩)
    · exact Or.inl h
    · exact Or.inr h
  · rintro (h | h)
    · exact Or.inl h
    · by_cases hr : k ∈ res.keys
      · exact Or.inl hr
      · exact Or.inr ⟨h, hr⟩

lemma instance_diff_nodup (running res : CountDict)
    (h1 : running.Inv) (h2 : res.Inv) :
    (instance_diff running res).keys.Nodup := by
  simp only [instance_diff]
  rw [List.nodup_append]
  refine ⟨h2.1, h1.1.filter _, ?_⟩
  intro x hx hx2
  rcases List.mem_filter.mp hx2 with ⟨_, hdec⟩
  have hnot : x ∉ res.keys := by simpa using hdec
  exact hnot hx

lemma instance_diff_val (running res : CountDict)
    (h1 : running.Inv) (h2 : res.Inv) (k : Key) :
    (instance_diff running res).val k = res.val k - running.val k := by
  simp only [instance_diff]
  by_cases hr : k ∈ res.keys
  · rw [if_pos hr]
    unfold CountDict.get
    by_cases hk : k ∈ running.keys
    · rw [if_pos hk]
    · rw [if_neg hk, h1.2 k hk]
  · rw [if_neg hr, h2.2 k hr]
    by_cases hk : k ∈ running.keys
    · rw [if_pos hk]; ring
    · rw [if_neg hk, h1.2 k hk]; ring

lemma instance_diff_inv (running res : CountDict)
    (h1 : running.Inv) (h2 : res.Inv) :
    (instance_diff running res).Inv := by
  refine ⟨instance_diff_nodup running res h1 h2, ?_⟩
  intro k hk
  rw [mem_instance_diff] at hk
  push_neg at hk
  rw [instance_diff_val running res h1 h2 k, h1.2 k hk.2, h2.2 k hk.1]
  ring

/-! ### Lemmas about the three output buckets -/

lemma unused_keys_eq (diff : CountDict) :
    (unused_reservations diff).map Prod.fst
      = diff.keys.filter fun k => decide (diff.val k > 0) := by
  unfold unused_reservations
  rw [List.map_map]
  have hc : (Prod.fst ∘ fun k : Key => (k, diff.val k)) = id := rfl
  rw [hc, List.map_id]

lemma unreserved_keys_eq (diff : CountDict) :
    (unreserved_instances diff).map Prod.fst
      = diff.keys.filter fun k => decide (diff.val k < 0) := by
  unfold unreserved_instances
  rw [List.map_map]
  have hc : (Prod.fst ∘ fun k : Key => (k, - diff.val k)) = id := rfl
  rw [hc, List.map_id]

lemma unused_snd_eq (diff : CountDict) :
    (unused_reservations diff).map Prod.snd
      = (diff.keys.filter fun k => decide (diff.val k > 0)).map diff.val := by
  unfold unused_reservations
  rw [List.map_map]
  rfl

lemma unreserved_snd_eq (diff : CountDict) :
    (unreserved_instances diff).map Prod.snd
      = (diff.keys.filter fun k => decide (diff.val k < 0)).map (fun k => - diff.val k) := by
  unfold unreserved_instances
  rw [List.map_map]
  rfl

lemma mem_unused_keys (diff : CountDict) (k : Key) :
    k ∈ (unused_reservations diff).map Prod.fst
      ↔ k ∈ diff.keys ∧ 0 < diff.val k := by
  rw [unused_keys_eq]
  simp [List.mem_filter]

lemma mem_unreserved_keys (diff : CountDict) (k : Key) :
    k ∈ (unreserved_instances diff).map Prod.fst
      ↔ k ∈ diff.keys ∧ diff.val k < 0 := by
  rw [unreserved_keys_eq]
  simp [List.mem_filter]

lemma mem_used (diff : CountDict) (k : Key) :
    k ∈ used_reservations diff ↔ k ∈ diff.keys ∧ diff.val k = 0 := by
  simp [used_reservations, List.mem_filter]

lemma pair_mem_unused (diff : CountDict) (k : Key)
    (hk : k ∈ diff.keys) (hv : 0 < diff.val k) :
    (k, diff.val k) ∈ unused_reservations diff := by
  unfold unused_reservations
  exact List.mem_map_of_mem _ (List.mem_filter.mpr ⟨hk, by simpa using hv⟩)

lemma pair_mem_unreserved (diff : CountDict) (k : Key)
    (hk : k ∈ diff.keys) (hv : diff.val k < 0) :
    (k, - diff.val k) ∈ unreserved_instances diff := by
  unfold unreserved_instances
  exact List.mem_map_of_mem _ (List.mem_filter.mpr ⟨hk, by simpa using hv⟩)

/-! ### Summation lemmas -/

lemma sum_map_sub (l : List Key) (f g : Key → Int) :
    (l.map fun k => f k - g k).sum = (l.map f).sum - (l.map g).sum := by
  induction l with
  | nil => simp
  | cons a l ih => simp only [List.map_cons, List.sum_cons, ih]; ring

lemma sum_sign_split (l : List Key) (f : Key → Int) :
    ((l.filter fun k => decide (f k > 0)).map f).sum
      - ((l.filter fun k => decide (f k < 0)).map (fun k => - f k)).sum
      = (l.map f).sum := by
  induction l with
  | nil => simp
  | cons a l ih =>
    simp only [List.filter_cons, List.map_cons, List.sum_cons]
    rcases lt_trichotomy (f a) 0 with h | h | h
    · rw [if_neg (by simpa using not_lt_of_gt h), if_pos (by simpa using h)]
      simp only [List.map_cons, List.sum_cons]
      linarith [ih]
    · rw [if_neg (by simp [h]), if_neg (by simp [h])]
      linarith [ih]
    · rw [if_pos (by simpa using h), if_neg (by simpa using not_lt_of_gt h)]
      simp only [List.map_cons, List.sum_cons]
      linarith [ih]

lemma sum_map_filter_of_zero (l : List Key) (f : Key → Int) (p : Key → Bool)
    (h : ∀ k ∈ l, p k = false → f k = 0) :
    (l.map f).sum = ((l.filter p).map f).sum := by
  induction l with
  | nil => simp
  | cons a l ih =>
    have ih2 := ih (fun k hk => h k (List.mem_cons_of_mem a hk))
    simp only [List.map_cons, List.sum_cons, List.filter_cons]
    by_cases hp : p a = true
    · rw [if_pos hp]
      simp only [List.map_cons, List.sum_cons, ih2]
    · have hpf : p a = false := by revert hp; cases p a <;> simp
      rw [if_neg hp, h a (List.mem_cons_self a l) hpf, ih2]
      ring

lemma sum_map_perm_of_nodup (l₁ l₂ : List Key) (f : Key → Int)
    (h1 : l₁.Nodup) (h2 : l₂.Nodup) (h : ∀ k, k ∈ l₁ ↔ k ∈ l₂) :
    (l₁.map f).sum = (l₂.map f).sum :=
  (((List.perm_ext_iff_of_nodup h1 h2).mpr h).map f).sum_eq

lemma sum_map_superset (L l : List Key) (f : Key → Int)
    (hL : L.Nodup) (hl : l.Nodup)
    (hsub : ∀ k ∈ l, k ∈ L) (hz : ∀ k, k ∉ l → f k = 0) :
    (L.map f).sum = (l.map f).sum := by
  rw [sum_map_filter_of_zero L f (fun k => decide (k ∈ l))
    (fun k _ hk => hz k (by simpa using hk))]
  apply sum_map_perm_of_nodup _ _ f (hL.filter _) hl
  intro k
  simp only [List.mem_filter, decide_eq_true_eq]
  exact ⟨fun hx => hx.2, fun hx => ⟨hsub k hx, hx⟩⟩

lemma instance_diff_sum (running res : CountDict)
    (h1 : running.Inv) (h2 : res.Inv) :
    ((instance_diff running res).keys.map (instance_diff running res).val).sum
      = res.total - running.total := by
  have hval : ∀ k ∈ (instance_diff running res).keys,
      (instance_diff running res).val k = res.val k - running.val k :=
    fun k _ => instance_diff_val running res h1 h2 k
  rw [List.map_congr_left hval, sum_map_sub]
  have hres : ((instance_diff running res).keys.map res.val).sum = res.total :=
    sum_map_superset _ _ res.val (instance_diff_nodup running res h1 h2) h2.1
      (fun k hk => (mem_instance_diff running res k).mpr (Or.inl hk)) h2.2
  have hrun : ((instance_diff running res).keys.map running.val).sum = running.total :=
    sum_map_superset _ _ running.val (instance_diff_nodup running res h1 h2) h1.1
      (fun k hk => (mem_instance_diff running res k).mpr (Or.inr hk)) h1.2
  rw [hres, hrun]

lemma running_val_pos (insts : List Ec2Instance) (k : Key)
    (hk : k ∈ (running_instances insts).keys) :
    1 ≤ (running_instances insts).val k := by
  rw [running_instances_val]
  rcases (mem_running_instances insts k).mp hk with ⟨i, hi, h1, h2⟩
  have hm : i ∈ (insts.filter fun i => !i.isSpot).filter fun i => decide (i.key = k) :=
    List.mem_filter.mpr ⟨List.mem_filter.mpr ⟨hi, by simp [h1]⟩, by simp [h2]⟩
  have hp : 0 < ((insts.filter fun i => !i.isSpot).filter
      fun i => decide (i.key = k)).length :=
    List.length_pos.mpr (List.ne_nil_of_mem hm)
  exact_mod_cast hp

lemma reserved_val_pos (rs : List RiRecord) (dr : String) (k : Key)
    (hc : ∀ r ∈ rs, 1 ≤ r.instanceCount)
    (hk : k ∈ (reserved_instances rs dr).keys) :
    1 ≤ (reserved_instances rs dr).val k := by
  rw [reserved_instances_val]
  rcases (mem_reserved_instances rs dr k).mp hk with ⟨r, hr, hkey⟩
  have hm : r.instanceCount
      ∈ (rs.filter fun r => decide (r.key dr = k)).map RiRecord.instanceCount :=
    List.mem_map_of_mem _ (List.mem_filter.mpr ⟨hr, by simp [hkey]⟩)
  have h0 : ∀ x ∈ (rs.filter fun r => decide (r.key dr = k)).map RiRecord.instanceCount,
      (0 : Int) ≤ x := by
    intro x hx
    rcases List.mem_map.mp hx with ⟨r2, hr2, rfl⟩
    exact le_trans (by norm_num) (hc r2 (List.mem_of_mem_filter hr2))
  calc (1 : Int) ≤ r.instanceCount := hc r hr
    _ ≤ _ := List.single_le_sum h0 _ hm

lemma used_pairs_fst (diff : CountDict) (m : ListDict) :
    ((used_reservations diff).map (fun k => (k, m.get k ["N/A"]))).map Prod.fst
      = used_reservations diff := by
  rw [List.map_map]
  have hc : (Prod.fst ∘ fun k : Key => (k, m.get k ["N/A"])) = id := rfl
  rw [hc, List.map_id]

lemma bucket_cover (diff : CountDict) (k : Key) :
    (k ∈ (unused_reservations diff).map Prod.fst
        ∨ k ∈ (unreserved_instances diff).map Prod.fst
        ∨ k ∈ used_reservations diff)
      ↔ k ∈ diff.keys := by
  rw [mem_unused_keys, mem_unreserved_keys, mem_used]
  constructor
  · rintro (⟨h, _⟩ | ⟨h, _⟩ | ⟨h, _⟩) <;> exact h
  · intro h
    rcases lt_trichotomy (diff.val k) 0 with hv | hv | hv
    · exact Or.inr (Or.inl ⟨h, hv⟩)
    · exact Or.inr (Or.inr ⟨h, hv⟩)
    · exact Or.inl ⟨h, hv⟩

/-! ### The claims -/

/-- C1: for every key appearing in either aggregate map,
`diff[key] = reserved_count[key] - running_count[key]`; a key present
only in `running_count` yields `diff = -running_count[key]`, and a key
present only in `reserved_count` yields `diff = reserved_count[key]`. -/
theorem c1_diff_formula (insts : List Ec2Instance) (rs : List RiRecord)
    (dr : String) (k : Key)
    (hk : k ∈ (running_instances insts).keys ∨ k ∈ (reserved_instances rs dr).keys) :
    (diff_of insts rs dr).val k
        = (reserved_instances rs dr).val k - (running_instances insts).val k
      ∧ (k ∉ (reserved_instances rs dr).keys →
          (diff_of insts rs dr).val k = - (running_instances insts).val k)
      ∧ (k ∉ (running_instances insts).keys →
          (diff_of insts rs dr).val k = (reserved_instances rs dr).val k) := by
  have hv : (diff_of insts rs dr).val k
      = (reserved_instances rs dr).val k - (running_instances insts).val k :=
    instance_diff_val _ _ (running_instances_inv insts) (reserved_instances_inv rs dr) k
  refine ⟨hv, fun hr => ?_, fun hrun => ?_⟩
  · rw [hv, (reserved_instances_inv rs dr).2 k hr]; ring
  · rw [hv, (running_instances_inv insts).2 k hrun]; ring

/-- C1 witness: the demo key `(t3.micro, eu-west-1)` is present only in
the running map and its difference is minus its running count. -/
theorem c1_diff_formula_witness :
    (("t3.micro", "eu-west-1") ∈ (running_instances demoInstances).keys
        ∨ ("t3.micro", "eu-west-1") ∈ (reserved_instances demoReserved "eu-west-1").keys)
      ∧ ((diff_of demoInstances demoReserved "eu-west-1").val ("t3.micro", "eu-west-1")
           = (reserved_instances demoReserved "eu-west-1").val ("t3.micro", "eu-west-1")
             - (running_instances demoInstances).val ("t3.micro", "eu-west-1")
         ∧ (("t3.micro", "eu-west-1") ∉ (reserved_instances demoReserved "eu-west-1").keys →
             (diff_of demoInstances demoReserved "eu-west-1").val ("t3.micro", "eu-west-1")
               = - (running_instances demoInstances).val ("t3.micro", "eu-west-1"))
         ∧ (("t3.micro", "eu-west-1") ∉ (running_instances demoInstances).keys →
             (diff_of demoInstances demoReserved "eu-west-1").val ("t3.micro", "eu-west-1")
               = (reserved_instances demoReserved "eu-west-1").val ("t3.micro", "eu-west-1"))) :=
  ⟨Or.inl (by decide),
   c1_diff_formula demoInstances demoReserved "eu-west-1" ("t3.micro", "eu-west-1")
     (Or.inl (by decide))⟩

/-- C3 counterexample: a reservation whose `AvailabilityZone` field is
present but holds the empty string, with `Scope == "Region"`, resolves
to the session region, not to the zone string with its last character
stripped, contradicting the claim that presence of the field alone
selects the stripping branch. -/
theorem c3_counterexample :
    emptyAzRecord.availabilityZone = some ""
      ∧ reservedRegion "eu-west-1" emptyAzRecord = "eu-west-1"
      ∧ reservedRegion "eu-west-1" emptyAzRecord ≠ String.dropRight "" 1 := by
  refine ⟨rfl, rfl, ?_⟩
  decide

/-- C3 amended: region derivation uses the availability zone with its
trailing character stripped when the field is present AND non-empty
(Python truthiness); when the zone is absent or empty, scope `"Region"`
selects the session's default region, anything else yields `"Unknown"`;
in particular a reservation with scope `"Region"` and no availability
zone resolves to the default region. -/
theorem c3_region_derivation (dr : String) (r : RiRecord) :
    (∀ az, r.availabilityZone = some az → az ≠ "" →
        reservedRegion dr r = az.dropRight 1)
      ∧ ((r.availabilityZone = none ∨ r.availabilityZone = some "") →
          r.scope = some "Region" → reservedRegion dr r = dr)
      ∧ ((r.availabilityZone = none ∨ r.availabilityZone = some "") →
          ¬ r.scope = some "Region" → reservedRegion dr r = "Unknown")
      ∧ (r.availabilityZone = none → r.scope = some "Region" →
          reservedRegion dr r = dr) := by
  obtain ⟨t, azo, sc, n⟩ := r
  refine ⟨?_, ?_, ?_, ?_⟩
  · rintro az rfl hne
    simp [reservedRegion, hne]
  · rintro (rfl | rfl) hsc <;> (dsimp only at hsc; simp [reservedRegion, hsc])
  · rintro (rfl | rfl) hsc <;> (dsimp only at hsc; simp [reservedRegion, hsc])
  · rintro rfl hsc
    dsimp only at hsc
    simp [reservedRegion, hsc]

/-- C3 witness: a regional reservation with no availability zone
resolves to the session's default region. -/
theorem c3_region_derivation_witness :
    (⟨"m5.large", none, some "Region", 1⟩ : RiRecord).availabilityZone = none
      ∧ reservedRegion "eu-west-1" ⟨"m5.large", none, some "Region", 1⟩ = "eu-west-1" :=
  ⟨rfl, (c3_region_derivation "eu-west-1" ⟨"m5.large", none, some "Region", 1⟩).2.2.2 rfl rfl⟩

/-- C4: a spot-flagged running instance contributes to no key of
`running_instances` and to no key of `instance_mapping`: deleting it
from the input leaves both dictionaries unchanged. -/
theorem c4_spot_excluded (pre post : List Ec2Instance) (i : Ec2Instance)
    (h : i.isSpot = true) :
    running_instances (pre ++ i :: post) = running_instances (pre ++ post)
      ∧ instance_mapping (pre ++ i :: post) = instance_mapping (pre ++ post) := by
  constructor
  · unfold running_instances
    rw [List.foldl_append, List.foldl_append, List.foldl_cons, if_pos h]
  · unfold instance_mapping
    rw [List.foldl_append, List.foldl_append, List.foldl_cons, if_pos h]

/-- C4 witness: a lone spot instance yields the same (empty)
dictionaries as no input at all. -/
theorem c4_spot_excluded_witness :
    running_instances ([] ++ spotOnly :: []) = running_instances ([] ++ [])
      ∧ instance_mapping ([] ++ spotOnly :: []) = instance_mapping ([] ++ []) :=
  c4_spot_excluded [] [] spotOnly rfl

/-- C6: the reconciler is deterministic: the same inputs produce the
identical report (buckets and totals). -/
theorem c6_deterministic (insts₁ insts₂ : List Ec2Instance)
    (rs₁ rs₂ : List RiRecord) (dr₁ dr₂ : String)
    (h1 : insts₁ = insts₂) (h2 : rs₁ = rs₂) (h3 : dr₁ = dr₂) :
    reconcile insts₁ rs₁ dr₁ = reconcile insts₂ rs₂ dr₂ := by
  rw [h1, h2, h3]

/-- C6 witness: reconciling the demo inputs twice gives equal reports. -/
theorem c6_deterministic_witness :
    reconcile demoInstances demoReserved "eu-west-1"
      = reconcile demoInstances demoReserved "eu-west-1" :=
  c6_deterministic demoInstances demoInstances demoReserved demoReserved
    "eu-west-1" "eu-west-1" rfl rfl rfl

/-- C7: the summary totals are the sums of the per-key aggregate values:
the running total is the sum of `running_instances` values, equal to the
number of non-spot records, and the reserved total is the sum of
`reserved_instances` values, equal to the sum of all reservation
counts. -/
theorem c7_summary_totals (insts : List Ec2Instance) (rs : List RiRecord)
    (dr : String) :
    qty_running_instances insts
        = ((running_instances insts).keys.map (running_instances insts).val).sum
      ∧ qty_running_instances insts = ((insts.filter fun i => !i.isSpot).length : Int)
      ∧ qty_reserved_instances rs dr
        = ((reserved_instances rs dr).keys.map (reserved_instances rs dr).val).sum
      ∧ qty_reserved_instances rs dr = (rs.map RiRecord.instanceCount).sum :=
  ⟨rfl, qty_running_eq insts, rfl, qty_reserved_eq rs dr⟩

/-- C9: `running_instances` and `instance_mapping` agree at every key:
the count equals the length of the ID list, the ID list is exactly the
IDs of the non-spot records matching the key in input order, and the two
key sets coincide. -/
theorem c9_lockstep (insts : List Ec2Instance) (k : Key) :
    (running_instances insts).val k = (((instance_mapping insts).val k).length : Int)
      ∧ (instance_mapping insts).val k
        = ((insts.filter fun i => !i.isSpot).filter fun i => decide (i.key = k)).map
            Ec2Instance.instanceId
      ∧ (k ∈ (running_instances insts).keys ↔ k ∈ (instance_mapping insts).keys) := by
  refine ⟨?_, instance_mapping_val insts k, ?_⟩
  · rw [running_instances_val, instance_mapping_val, List.length_map]
  · rw [mem_running_instances, mem_instance_mapping]

/-- C2: the difference keys are exactly the union of the two aggregate
key sets, and each such key lands in exactly one of the three buckets
according to the sign of its difference, the unreserved bucket carrying
the positive magnitude. -/
theorem c2_partition (insts : List Ec2Instance) (rs : List RiRecord)
    (dr : String) (k : Key) :
    (k ∈ (diff_of insts rs dr).keys
        ↔ (k ∈ (running_instances insts).keys
            ∨ k ∈ (reserved_instances rs dr).keys))
      ∧ (k ∈ (diff_of insts rs dr).keys →
          ((0 < (diff_of insts rs dr).val k
              ∧ (k, (diff_of insts rs dr).val k)
                  ∈ unused_reservations (diff_of insts rs dr)
              ∧ k ∉ (unreserved_instances (diff_of insts rs dr)).map Prod.fst
              ∧ k ∉ used_reservations (diff_of insts rs dr))
            ∨ ((diff_of insts rs dr).val k < 0
              ∧ (k, - (diff_of insts rs dr).val k)
                  ∈ unreserved_instances (diff_of insts rs dr)
              ∧ 0 < - (diff_of insts rs dr).val k
              ∧ k ∉ (unused_reservations (diff_of insts rs dr)).map Prod.fst
              ∧ k ∉ used_reservations (diff_of insts rs dr))
            ∨ ((diff_of insts rs dr).val k = 0
              ∧ k ∈ used_reservations (diff_of insts rs dr)
              ∧ k ∉ (unused_reservations (diff_of insts rs dr)).map Prod.fst
              ∧ k ∉ (unreserved_instances (diff_of insts rs dr)).map Prod.fst))) := by
  constructor
  · have h := mem_instance_diff (running_instances insts) (reserved_instances rs dr) k
    exact h.trans (or_comm)
  · intro hk
    rcases lt_trichotomy ((diff_of insts rs dr).val k) 0 with h | h | h
    · refine Or.inr (Or.inl
        ⟨h, pair_mem_unreserved (diff_of insts rs dr) k hk h, by linarith, ?_, ?_⟩)
      · intro hmem
        rcases (mem_unused_keys (diff_of insts rs dr) k).mp hmem with ⟨_, h2⟩
        linarith
      · intro hmem
        rcases (mem_used (diff_of insts rs dr) k).mp hmem with ⟨_, h2⟩
        linarith
    · refine Or.inr (Or.inr
        ⟨h, (mem_used (diff_of insts rs dr) k).mpr ⟨hk, h⟩, ?_, ?_⟩)
      · intro hmem
        rcases (mem_unused_keys (diff_of insts rs dr) k).mp hmem with ⟨_, h2⟩
        linarith
      · intro hmem
        rcases (mem_unreserved_keys (diff_of insts rs dr) k).mp hmem with ⟨_, h2⟩
        linarith
    · refine Or.inl
        ⟨h, pair_mem_unused (diff_of insts rs dr) k hk h, ?_, ?_⟩
      · intro hmem
        rcases (mem_unreserved_keys (diff_of insts rs dr) k).mp hmem with ⟨_, h2⟩
        linarith
      · intro hmem
        rcases (mem_used (diff_of insts rs dr) k).mp hmem with ⟨_, h2⟩
        linarith

/-- C2 witness: the demo key `(m5.large, eu-west-1)` is a difference key
and lands in exactly one bucket. -/
theorem c2_partition_witness :
    ("m5.large", "eu-west-1") ∈ (diff_of demoInstances demoReserved "eu-west-1").keys
      ∧ ((0 < (diff_of demoInstances demoReserved "eu-west-1").val ("m5.large", "eu-west-1")
            ∧ (("m5.large", "eu-west-1"),
                (diff_of demoInstances demoReserved "eu-west-1").val ("m5.large", "eu-west-1"))
                ∈ unused_reservations (diff_of demoInstances demoReserved "eu-west-1")
            ∧ ("m5.large", "eu-west-1")
                ∉ (unreserved_instances (diff_of demoInstances demoReserved "eu-west-1")).map Prod.fst
            ∧ ("m5.large", "eu-west-1")
                ∉ used_reservations (diff_of demoInstances demoReserved "eu-west-1"))
          ∨ ((diff_of demoInstances demoReserved "eu-west-1").val ("m5.large", "eu-west-1") < 0
            ∧ (("m5.large", "eu-west-1"),
                - (diff_of demoInstances demoReserved "eu-west-1").val ("m5.large", "eu-west-1"))
                ∈ unreserved_instances (diff_of demoInstances demoReserved "eu-west-1")
            ∧ 0 < - (diff_of demoInstances demoReserved "eu-west-1").val ("m5.large", "eu-west-1")
            ∧ ("m5.large", "eu-west-1")
                ∉ (unused_reservations (diff_of demoInstances demoReserved "eu-west-1")).map Prod.fst
            ∧ ("m5.large", "eu-west-1")
                ∉ used_reservations (diff_of demoInstances demoReserved "eu-west-1"))
          ∨ ((diff_of demoInstances demoReserved "eu-west-1").val ("m5.large", "eu-west-1") = 0
            ∧ ("m5.large", "eu-west-1")
                ∈ used_reservations (diff_of demoInstances demoReserved "eu-west-1")
            ∧ ("m5.large", "eu-west-1")
                ∉ (unused_reservations (diff_of demoInstances demoReserved "eu-west-1")).map Prod.fst
            ∧ ("m5.large", "eu-west-1")
                ∉ (unreserved_instances (diff_of demoInstances demoReserved "eu-west-1")).map Prod.fst)) :=
  ⟨by decide,
   (c2_partition demoInstances demoReserved "eu-west-1" ("m5.large", "eu-west-1")).2
     (by decide)⟩

/-- C5: when every reservation count is at least 1, every difference key
with zero difference is reported in the exactly-used bucket together
with the ID list of the non-spot running instances matching that key,
whose length equals the key's running count. -/
theorem c5_used_bucket (insts : List Ec2Instance) (rs : List RiRecord) (dr : String)
    (hc : ∀ r ∈ rs, 1 ≤ r.instanceCount) (k : Key)
    (hk : k ∈ (diff_of insts rs dr).keys)
    (h0 : (diff_of insts rs dr).val k = 0) :
    k ∈ used_reservations (diff_of insts rs dr)
      ∧ (instance_mapping insts).get k ["N/A"]
        = ((insts.filter fun i => !i.isSpot).filter fun i => decide (i.key = k)).map
            Ec2Instance.instanceId
      ∧ (((instance_mapping insts).get k ["N/A"]).length : Int)
        = (running_instances insts).val k := by
  have hrinv := running_instances_inv insts
  have hsinv := reserved_instances_inv rs dr
  have hused : k ∈ used_reservations (diff_of insts rs dr) :=
    (mem_used _ k).mpr ⟨hk, h0⟩
  have hdv : (diff_of insts rs dr).val k
      = (reserved_instances rs dr).val k - (running_instances insts).val k :=
    instance_diff_val _ _ hrinv hsinv k
  have hmemrun : k ∈ (running_instances insts).keys := by
    by_contra habs
    have hz : (running_instances insts).val k = 0 := hrinv.2 k habs
    have hkres : k ∈ (reserved_instances rs dr).keys := by
      rcases (mem_instance_diff (running_instances insts)
          (reserved_instances rs dr) k).mp hk with h | h
      · exact h
      · exact absurd h habs
    have hpos := reserved_val_pos rs dr k hc hkres
    rw [hdv, hz] at h0
    linarith
  have hmapmem : k ∈ (instance_mapping insts).keys :=
    (mem_instance_mapping insts k).mpr ((mem_running_instances insts k).mp hmemrun)
  have hget : (instance_mapping insts).get k ["N/A"] = (instance_mapping insts).val k := by
    unfold ListDict.get
    rw [if_pos hmapmem]
  refine ⟨hused, ?_, ?_⟩
  · rw [hget, instance_mapping_val]
  · rw [hget, running_instances_val, instance_mapping_val, List.length_map]

/-- C5 witness: the demo key `(c5.xlarge, us-east-1)` matches a count-2
reservation with two running instances; the reported list is
`["i-1", "i-2"]`, of length 2. -/
theorem c5_used_bucket_witness :
    (∀ r ∈ demoReserved, 1 ≤ r.instanceCount)
      ∧ ("c5.xlarge", "us-east-1") ∈ (diff_of demoInstances demoReserved "eu-west-1").keys
      ∧ (diff_of demoInstances demoReserved "eu-west-1").val ("c5.xlarge", "us-east-1") = 0
      ∧ (("c5.xlarge", "us-east-1")
            ∈ used_reservations (diff_of demoInstances demoReserved "eu-west-1")
          ∧ (instance_mapping demoInstances).get ("c5.xlarge", "us-east-1") ["N/A"]
            = ((demoInstances.filter fun i => !i.isSpot).filter
                fun i => decide (i.key = ("c5.xlarge", "us-east-1"))).map
                Ec2Instance.instanceId
          ∧ (((instance_mapping demoInstances).get ("c5.xlarge", "us-east-1") ["N/A"]).length : Int)
            = (running_instances demoInstances).val ("c5.xlarge", "us-east-1"))
      ∧ (instance_mapping demoInstances).get ("c5.xlarge", "us-east-1") ["N/A"]
          = ["i-1", "i-2"] :=
  ⟨by decide, by decide, by decide,
   c5_used_bucket demoInstances demoReserved "eu-west-1" (by decide)
     ("c5.xlarge", "us-east-1") (by decide) (by decide),
   by decide⟩

/-- C8: on well-formed input the reconciler is total: it produces its
report, whose bucket keys cover exactly the union of the two aggregate
key sets and whose two totals are the script's sums.  In this shallow
embedding every step (zone stripping, aggregation, difference,
bucketing, totals) is a total function, so no error state exists. -/
theorem c8_no_failure (insts : List Ec2Instance) (rs : List RiRecord) (dr : String)
    (hw1 : ∀ i ∈ insts, WfInstance i) (hw2 : ∀ r ∈ rs, WfReserved r) :
    (∀ k, (k ∈ (reconcile insts rs dr).unused.map Prod.fst
          ∨ k ∈ (reconcile insts rs dr).unreserved.map Prod.fst
          ∨ k ∈ (reconcile insts rs dr).used.map Prod.fst)
        ↔ (k ∈ (running_instances insts).keys ∨ k ∈ (reserved_instances rs dr).keys))
      ∧ (reconcile insts rs dr).qtyRunning = qty_running_instances insts
      ∧ (reconcile insts rs dr).qtyReserved = qty_reserved_instances rs dr := by
  refine ⟨?_, rfl, rfl⟩
  intro k
  have e1 : (reconcile insts rs dr).unused
      = unused_reservations (diff_of insts rs dr) := rfl
  have e2 : (reconcile insts rs dr).unreserved
      = unreserved_instances (diff_of insts rs dr) := rfl
  have e3 : (reconcile insts rs dr).used
      = (used_reservations (diff_of insts rs dr)).map
          (fun k => (k, (instance_mapping insts).get k ["N/A"])) := rfl
  rw [e1, e2, e3, used_pairs_fst]
  have hcover := bucket_cover (diff_of insts rs dr) k
  have hmem := mem_instance_diff (running_instances insts) (reserved_instances rs dr) k
  exact hcover.trans (hmem.trans or_comm)

/-- C8 witness: the demo input is well-formed and the reconciler covers
its keys and reports its totals. -/
theorem c8_no_failure_witness :
    (∀ i ∈ demoInstances, WfInstance i)
      ∧ (∀ r ∈ demoReserved, WfReserved r)
      ∧ ((("c5.xlarge", "us-east-1")
            ∈ (reconcile demoInstances demoReserved "eu-west-1").unused.map Prod.fst
          ∨ ("c5.xlarge", "us-east-1")
            ∈ (reconcile demoInstances demoReserved "eu-west-1").unreserved.map Prod.fst
          ∨ ("c5.xlarge", "us-east-1")
            ∈ (reconcile demoInstances demoReserved "eu-west-1").used.map Prod.fst)
        ↔ (("c5.xlarge", "us-east-1") ∈ (running_instances demoInstances).keys
          ∨ ("c5.xlarge", "us-east-1") ∈ (reserved_instances demoReserved "eu-west-1").keys))
      ∧ (reconcile demoInstances demoReserved "eu-west-1").qtyRunning
          = qty_running_instances demoInstances
      ∧ (reconcile demoInstances demoReserved "eu-west-1").qtyReserved
          = qty_reserved_instances demoReserved "eu-west-1" := by
  have hw1 : ∀ i ∈ demoInstances, WfInstance i := by
    intro i hi
    simp only [demoInstances, List.mem_cons, List.not_mem_nil, or_false] at hi
    rcases hi with rfl | rfl | rfl | rfl
    all_goals exact ⟨by decide, by decide⟩
  have hw2 : ∀ r ∈ demoReserved, WfReserved r := by
    intro r hr
    simp only [demoReserved, List.mem_cons, List.not_mem_nil, or_false] at hr
    rcases hr with rfl | rfl
    · refine ⟨by norm_num, by decide, ?_⟩
      intro az haz
      dsimp only at haz
      injection haz with h
      subst h
      decide
    · refine ⟨by norm_num, by decide, ?_⟩
      intro az haz
      dsimp only at haz
      exact Option.noConfusion haz
  have h := c8_no_failure demoInstances demoReserved "eu-west-1" hw1 hw2
  exact ⟨hw1, hw2, h.1 ("c5.xlarge", "us-east-1"), h.2.1, h.2.2⟩

/-- C10: the unused-reservation magnitudes minus the unreserved-usage
magnitudes equal the reserved total minus the running total. -/
theorem c10_conservation (insts : List Ec2Instance) (rs : List RiRecord)
    (dr : String) :
    ((unused_reservations (diff_of insts rs dr)).map Prod.snd).sum
      - ((unreserved_instances (diff_of insts rs dr)).map Prod.snd).sum
      = qty_reserved_instances rs dr - qty_running_instances insts := by
  have h : ((diff_of insts rs dr).keys.map (diff_of insts rs dr).val).sum
      = (reserved_instances rs dr).total - (running_instances insts).total :=
    instance_diff_sum _ _ (running_instances_inv insts) (reserved_instances_inv rs dr)
  rw [unused_snd_eq, unreserved_snd_eq, sum_sign_split, h]
  rfl

end AwsReports
